import Mathlib

/-!
Shallow embedding of the queue-management data-access layer
(`src/unnamed/part_001`, partitioned-schema variant, and
`src/src/services/backendFunctions.js`).

JS strings are modelled as lists of UTF-16 code units (`List Nat`);
the external realtime store is modelled as an explicit `DB` record of
association lists, and each JS `async` function becomes a pure Lean
function over `DB`, with thrown JS errors rendered as `Except.error`.
On every error path of the source the throw happens before the first
store write, so an `Except.error` result models an unchanged store.
-/

namespace QueueMgmt

/-- JS string: list of UTF-16 code units. -/
abbrev JStr := List Nat

/-- Code units treated as whitespace by JS `String.prototype.trim`. -/
def isWsCode (c : Nat) : Bool :=
  c = 9 ∨ c = 10 ∨ c = 11 ∨ c = 12 ∨ c = 13 ∨ c = 32 ∨ c = 160 ∨ c = 5760 ∨
    (8192 ≤ c ∧ c ≤ 8202) ∨ c = 8232 ∨ c = 8233 ∨ c = 8239 ∨ c = 8287 ∨
    c = 12288 ∨ c = 65279

/-- ASCII digit code unit (as matched by the regex class `\d`). -/
def isDigitCode (c : Nat) : Bool := 48 ≤ c ∧ c ≤ 57

/-- JS `s.trim()`: strip leading and trailing whitespace. -/
def jsTrim (s : JStr) : JStr :=
  ((s.dropWhile isWsCode).reverse.dropWhile isWsCode).reverse

/-- JS `toLowerCase` on one code unit (ASCII range, which is all the
source ever feeds it). -/
def jsToLowerCode (c : Nat) : Nat := if 65 ≤ c ∧ c ≤ 90 then c + 32 else c

/-- JS `s.toLowerCase()` (ASCII). -/
def jsToLower (s : JStr) : JStr := s.map jsToLowerCode

/-- JS `s.slice(-n)`: the last `n` code units (the whole string when
shorter than `n`). -/
def sliceLast (n : Nat) (s : JStr) : JStr := s.drop (s.length - n)

/-- Result record returned by the validators in `backendFunctions.js`. -/
structure ValidationResult where
  valid : Bool
  message : String
deriving DecidableEq

/-- `validateName` from `src/src/services/backendFunctions.js`. -/
def validateName (name : JStr) : ValidationResult :=
  if name = [] ∨ jsTrim name = [] then
    ⟨false, "Please enter your name"⟩
  else if 30 < (jsTrim name).length then
    ⟨false, "Name must not exceed 50 characters"⟩
  else
    ⟨true, "Name is valid"⟩

/-- `validatePhone` from `src/src/services/backendFunctions.js`.
The regex test `^\d{10}$` is rendered as length-10 plus all-digits. -/
def validatePhone (phone : JStr) : ValidationResult :=
  if phone = [] ∨ jsTrim phone = [] then
    ⟨false, "Please enter your phone number"⟩
  else if phone.length ≠ 10 then
    ⟨false, "Phone number must be exactly 10 digits"⟩
  else if ¬ (phone.length = 10 ∧ phone.all isDigitCode) then
    ⟨false, "Phone number must contain only digits"⟩
  else
    ⟨true, "Phone number is valid"⟩

theorem dropWhile_eq_self_of_all (p : Nat → Bool) (l : JStr)
    (h : ∀ c ∈ l, p c = false) : l.dropWhile p = l := by
  cases l with
  | nil => rfl
  | cons a l => simp [List.dropWhile_cons, h a (List.mem_cons_self a l)]

theorem digit_not_ws {c : Nat} (h : isDigitCode c = true) : isWsCode c = false := by
  simp only [isDigitCode, decide_eq_true_eq] at h
  simp only [isWsCode, decide_eq_false_iff_not]
  omega

theorem jsTrim_of_digits {l : JStr} (h : ∀ c ∈ l, isDigitCode c = true) :
    jsTrim l = l := by
  unfold jsTrim
  rw [dropWhile_eq_self_of_all _ _ (fun c hc => digit_not_ws (h c hc))]
  rw [dropWhile_eq_self_of_all _ _ (fun c hc => digit_not_ws (h c (List.mem_reverse.mp hc)))]
  exact List.reverse_reverse l

/-! Store model: the three logical partitions of the realtime database,
the cached daily/monthly statistic records and the settings node.
Push keys are modelled by a fresh-key counter; `Object.entries` order is
modelled by list order (push keys are chronological). -/

/-- One queue entry as stored under `queues/waiting` or `queues/serving`
(the latter additionally carries `servedAt`). -/
structure Entry where
  name : JStr
  partySize : Nat
  phone : JStr
  position : Nat
  createdAt : Nat
  updatedAt : Nat
  servedAt : Option Nat
deriving DecidableEq

/-- An entry as stored under `queues/archived`: the spread of the source
entry plus `status`, `completedAt` and `waitTime`. -/
structure ArchEntry extends Entry where
  status : String
  completedAt : Nat
  waitTime : Nat
deriving DecidableEq

/-- Cached daily statistics record (`queues/stats/daily/{date}`). -/
structure Stats where
  totalServed : Nat
  totalPeople : Nat
  totalWaitTime : Nat
  avgWaitTime : Nat
  lastUpdated : Nat
deriving DecidableEq

/-- Cached monthly statistics record (`queues/stats/monthly/{month}`). -/
structure MonthlyStats where
  totalServed : Nat
  totalPeople : Nat
  totalWaitTime : Nat
  avgWaitTime : Nat
deriving DecidableEq

/-- The external store, restricted to one current date/month (claims never
cross a date boundary). `averageServingTime` is `settings/config`. -/
structure DB where
  waiting : List (Nat × Entry)
  serving : List (Nat × Entry)
  archived : List (Nat × ArchEntry)
  statsDaily : Option Stats
  statsMonthly : Option MonthlyStats
  averageServingTime : Option Nat
  nextKey : Nat
deriving DecidableEq

/-- Error taxonomy of the adapter (the source throws `Error` with these
exact messages; the constructor classifies each message per the design's
taxonomy). -/
inductive Err where
  | validation (msg : String)
  | notFound (msg : String)
  | invalidTransition (msg : String)
deriving DecidableEq

/-- Firebase `get(path/{k})`: first binding of key `k`. -/
def lookupK {α : Type} (k : Nat) : List (Nat × α) → Option α
  | [] => none
  | p :: rest => if p.1 = k then some p.2 else lookupK k rest

/-- Firebase `set(path/{k}, v)`: replace in place, or create at the end. -/
def setK {α : Type} (k : Nat) (v : α) (l : List (Nat × α)) : List (Nat × α) :=
  if l.any (fun p => p.1 = k) then
    l.map (fun p => if p.1 = k then (k, v) else p)
  else l ++ [(k, v)]

/-- Firebase `remove(path/{k})`. -/
def removeK {α : Type} (k : Nat) (l : List (Nat × α)) : List (Nat × α) :=
  l.filter (fun p => p.1 ≠ k)

/-- Firebase `update(path/{k}, patch)` on an existing child (the only way
the source uses it: existence is checked first). -/
def updateK {α : Type} (k : Nat) (f : α → α) (l : List (Nat × α)) : List (Nat × α) :=
  l.map (fun p => if p.1 = k then (p.1, f p.2) else p)

/-- JS `Math.round (num / den)` for nonnegative operands:
`⌊num / den + 1 / 2⌋`. -/
def jsRound (num den : Nat) : Nat := (2 * num + den) / (2 * den)

/-- `getNextPosition` from `src/unnamed/part_001`. -/
def getNextPosition (db : DB) : Nat :=
  if db.waiting = [] then 1
  else
    let positions := db.waiting.map (fun p => p.2.position)
    if positions = [] then 1 else positions.foldr max 0 + 1

/-- `joinQueue` from `src/unnamed/part_001`: validate, read the next
position, push a fresh waiting entry. -/
def joinQueue (now : Nat) (name : JStr) (partySize : Nat) (phone : JStr)
    (db : DB) : Except Err (Nat × DB) :=
  if jsTrim name = [] ∨ jsTrim phone = [] ∨ partySize < 1 then
    .error (.validation "Please fill in all fields correctly")
  else
    let position := getNextPosition db
    let k := db.nextKey
    let e : Entry :=
      ⟨jsTrim name, partySize, jsTrim phone, position, now, now, none⟩
    .ok (k, { db with waiting := db.waiting ++ [(k, e)], nextKey := k + 1 })

/-- Comparison used by `getQueuePosition`'s `sort((a, b) => a.position - b.position)`. -/
def posLe (a b : Nat × Entry) : Prop := a.2.position ≤ b.2.position

instance : DecidableRel posLe := fun a b => Nat.decLe a.2.position b.2.position

instance : IsTotal (Nat × Entry) posLe :=
  ⟨fun a b => Nat.le_total a.2.position b.2.position⟩

instance : IsTrans (Nat × Entry) posLe :=
  ⟨fun _ _ _ h h' => Nat.le_trans h h'⟩

/-- JS `Array.prototype.findIndex`, with `none` for `-1`. -/
def findIdxA {α : Type} (p : α → Bool) : List α → Option Nat
  | [] => none
  | x :: xs => if p x then some 0 else (findIdxA p xs).map (· + 1)

/-- `getQueuePosition` from `src/unnamed/part_001`: 1-based index of the
entry in the waiting partition sorted ascending by `position`, 0 when
absent. -/
def getQueuePosition (k : Nat) (db : DB) : Nat :=
  if db.waiting = [] then 0
  else
    match findIdxA (fun p => p.1 = k) (List.insertionSort posLe db.waiting) with
    | some i => i + 1
    | none => 0

/-- `getEstimatedWaitTime` from `src/unnamed/part_001`. -/
def getEstimatedWaitTime (db : DB) : Nat :=
  let avg := match db.averageServingTime with
    | some v => if v = 0 then 5 else v
    | none => 5
  if db.waiting = [] then 0 else db.waiting.length * avg

/-- The record `getQueueStatus` resolves with. -/
structure StatusView where
  id : Nat
  entry : Entry
  position : Nat
  estimatedWaitTime : Nat
deriving DecidableEq

/-- `getQueueStatus` from `src/unnamed/part_001`: look in waiting, then
serving; reject if in neither. -/
def getQueueStatus (k : Nat) (db : DB) : Except Err StatusView :=
  match lookupK k db.waiting with
  | some e => .ok ⟨k, e, getQueuePosition k db, getEstimatedWaitTime db⟩
  | none =>
    match lookupK k db.serving with
    | some e => .ok ⟨k, e, getQueuePosition k db, getEstimatedWaitTime db⟩
    | none => .error (.notFound "Queue entry not found")

/-- `getDailyStats` from `src/unnamed/part_001`: cached record for the
current date, zero-valued default when absent. -/
def getDailyStats (now : Nat) (db : DB) : Stats :=
  match db.statsDaily with
  | some s => s
  | none => ⟨0, 0, 0, 0, now⟩

/-- `updateDailyStats` from `src/unnamed/part_001`: increments daily and
monthly aggregates, but only when the transition is `completed`. -/
def updateDailyStats (now : Nat) (status : String) (partySize waitTime : Nat)
    (db : DB) : DB :=
  let cur : Stats := match db.statsDaily with
    | some s => s
    | none => ⟨0, 0, 0, 0, now⟩
  let cur := if status = "completed" then
      let ts := cur.totalServed + 1
      let tp := cur.totalPeople + partySize
      let tw := cur.totalWaitTime + waitTime
      { cur with totalServed := ts, totalPeople := tp, totalWaitTime := tw,
                 avgWaitTime := jsRound tw ts }
    else cur
  let cur := { cur with lastUpdated := now }
  let db1 := { db with statsDaily := some cur }
  if status = "completed" then
    let m : MonthlyStats := match db1.statsMonthly with
      | some s => s
      | none => ⟨0, 0, 0, 0⟩
    let ts := m.totalServed + 1
    let tp := m.totalPeople + partySize
    let tw := m.totalWaitTime + waitTime
    { db1 with statsMonthly := some ⟨ts, tp, tw, jsRound tw ts⟩ }
  else db1

/-- The wait-time computation inside `updateQueueStatus`:
`Math.round((servedAt - createdAt) / 1000 / 60)` guarded by the JS
truthiness of `createdAt` and `servedAt`, else 0. -/
def calcWaitTime (e : Entry) : Nat :=
  match e.servedAt with
  | some s => if e.createdAt ≠ 0 ∧ s ≠ 0 then jsRound (s - e.createdAt) 60000 else 0
  | none => 0

/-- Where `updateQueueStatus` found the entry. -/
inductive Loc where
  | waiting
  | serving
deriving DecidableEq

/-- The waiting-then-serving lookup at the top of `updateQueueStatus`. -/
def locateEntry (k : Nat) (db : DB) : Option (Loc × Entry) :=
  match lookupK k db.waiting with
  | some e => some (.waiting, e)
  | none =>
    match lookupK k db.serving with
    | some e => some (.serving, e)
    | none => none

/-- The `validStatuses` array of `updateQueueStatus`. -/
def validStatuses : List String := ["serving", "completed", "skipped"]

/-- `updateQueueStatus` from `src/unnamed/part_001`: the staff-issued
transition (`advance` in the design document). -/
def updateQueueStatus (now k : Nat) (newStatus : String) (db : DB) :
    Except Err DB :=
  if ¬ newStatus ∈ validStatuses then
    .error (.invalidTransition ("Invalid status: " ++ newStatus))
  else
    match locateEntry k db with
    | none => .error (.notFound "Queue entry not found in waiting or serving")
    | some (loc, e) =>
      if newStatus = "serving" then
        if loc = .waiting then
          .ok { db with
                waiting := removeK k db.waiting,
                serving := setK k { e with servedAt := some now, updatedAt := now }
                             db.serving }
        else
          .ok db
      else
        let waitTime := calcWaitTime e
        let db1 := match loc with
          | .waiting => { db with waiting := removeK k db.waiting }
          | .serving => { db with serving := removeK k db.serving }
        let arch : ArchEntry :=
          { toEntry := e, status := newStatus, completedAt := now,
            waitTime := waitTime }
        let db2 := { db1 with archived := setK k arch db1.archived }
        .ok (updateDailyStats now newStatus
              (if e.partySize = 0 then 1 else e.partySize) waitTime db2)

/-- `reorderQueues` from `src/unnamed/part_001`: read both waiting
entries, then write each one's `position` with the other's. -/
def reorderQueues (k1 k2 : Nat) (db : DB) : Except Err DB :=
  match lookupK k1 db.waiting, lookupK k2 db.waiting with
  | some e1, some e2 =>
    .ok { db with
          waiting := updateK k2 (fun e => { e with position := e1.position })
                       (updateK k1 (fun e => { e with position := e2.position })
                         db.waiting) }
  | _, _ => .error (.notFound "One or both queue entries not found in waiting queue")

/-- The record `searchQueueByPhone` resolves with. -/
structure SearchHit where
  id : Nat
  status : String
  entry : Entry
deriving DecidableEq

/-- The match test inside `searchQueueByPhone`: the stored phone, trimmed
and lower-cased, equals the cleaned term or agrees with it on the last 7
code units (`slice(-7)`). -/
def phoneMatches (clean : JStr) (e : Entry) : Bool :=
  let qp := jsToLower (jsTrim e.phone)
  qp = clean ∨ sliceLast 7 qp = sliceLast 7 clean

/-- `searchQueueByPhone` from `src/unnamed/part_001`: waiting partition
first, then serving, first match wins. -/
def searchQueueByPhone (phone : JStr) (db : DB) : Except Err SearchHit :=
  if phone = [] ∨ jsTrim phone = [] then
    .error (.validation "Please enter a phone number")
  else
    let clean := jsToLower (jsTrim phone)
    match db.waiting.find? (fun p => phoneMatches clean p.2) with
    | some p => .ok ⟨p.1, "waiting", p.2⟩
    | none =>
      match db.serving.find? (fun p => phoneMatches clean p.2) with
      | some p => .ok ⟨p.1, "serving", p.2⟩
      | none => .error (.notFound "No queue found with this phone number")

/-- Matching as the specification words it, for the refinement claim
about search: exact equality with the trimmed term, or agreement on the
last 7 code units. -/
def claimPhoneMatches (t : JStr) (e : Entry) : Bool :=
  e.phone = t ∨ sliceLast 7 e.phone = sliceLast 7 t

/-- Search as the specification words it (waiting scanned before
serving, first match wins, `NotFoundError` otherwise), over the trimmed
term. -/
def claimSearch (t : JStr) (db : DB) : Except Err SearchHit :=
  match db.waiting.find? (fun p => claimPhoneMatches t p.2) with
  | some p => .ok ⟨p.1, "waiting", p.2⟩
  | none =>
    match db.serving.find? (fun p => claimPhoneMatches t p.2) with
    | some p => .ok ⟨p.1, "serving", p.2⟩
    | none => .error (.notFound "No queue found with this phone number")

/-- One join request, for iterated joins. -/
structure JoinReq where
  name : JStr
  partySize : Nat
  phone : JStr

/-- The inputs `joinQueue` accepts. -/
def validReq (r : JoinReq) : Prop :=
  jsTrim r.name ≠ [] ∧ jsTrim r.phone ≠ [] ∧ 1 ≤ r.partySize

instance (r : JoinReq) : Decidable (validReq r) := by
  unfold validReq; infer_instance

/-- A sequence of joins with no concurrent interleaving (a failed join
leaves the store untouched). -/
def joinMany (now : Nat) (reqs : List JoinReq) (db : DB) : DB :=
  reqs.foldl (fun d r =>
    match joinQueue now r.name r.partySize r.phone d with
    | .ok kd => kd.2
    | .error _ => d) db

/-! Concrete store values used by the closed witness and counterexample
theorems. -/

/-- Sample waiting entry ("A", party 2, phone 1234567890, position 1). -/
def entA : Entry := ⟨[65], 2, [49, 50, 51, 52, 53, 54, 55, 56, 57, 48], 1, 60000, 60000, none⟩

/-- Sample waiting entry ("B", party 3, phone 2222222222, position 2). -/
def entB : Entry := ⟨[66], 3, [50, 50, 50, 50, 50, 50, 50, 50, 50, 50], 2, 70000, 70000, none⟩

/-- Sample serving entry ("C", party 4, phone 3333333333, created at
60000 ms, served at 360000 ms). -/
def entC : Entry := ⟨[67], 4, [51, 51, 51, 51, 51, 51, 51, 51, 51, 51], 3, 60000, 90000, some 360000⟩

/-- Sample store: A and B waiting, C serving, empty archive and stats. -/
def dbSample : DB := ⟨[(0, entA), (1, entB)], [(2, entC)], [], none, none, none, 3⟩

/-- The empty store. -/
def dbEmpty : DB := ⟨[], [], [], none, none, none, 0⟩

/-! Claims about the validators. -/

/-- Claim C8: `validatePhone(p)` returns valid exactly when `p` is a
string of exactly 10 characters, all ASCII digits; in particular
"1234567890" is valid while "123456789", "12345678901" and "123abc7890"
are invalid. -/
theorem C8_validatePhone_ten_digits :
    (∀ p : JStr, (validatePhone p).valid = true ↔
      (p.length = 10 ∧ ∀ c ∈ p, isDigitCode c = true)) ∧
    (validatePhone [49, 50, 51, 52, 53, 54, 55, 56, 57, 48]).valid = true ∧
    (validatePhone [49, 50, 51, 52, 53, 54, 55, 56, 57]).valid = false ∧
    (validatePhone [49, 50, 51, 52, 53, 54, 55, 56, 57, 48, 49]).valid = false ∧
    (validatePhone [49, 50, 51, 97, 98, 99, 55, 56, 57, 48]).valid = false := by
  refine ⟨?_, by decide, by decide, by decide, by decide⟩
  intro p
  constructor
  · intro h
    unfold validatePhone at h
    split at h
    · simp at h
    · split at h
      · simp at h
      · split at h
        · simp at h
        · next h3 =>
          have h4 := not_not.mp h3
          exact ⟨h4.1, fun c hc => List.all_eq_true.mp h4.2 c hc⟩
  · rintro ⟨hl, hd⟩
    have hall : p.all isDigitCode = true := List.all_eq_true.mpr hd
    have htrim : jsTrim p = p := jsTrim_of_digits hd
    have hne : p ≠ [] := by
      intro h
      rw [h] at hl
      simp at hl
    simp [validatePhone, htrim, hne, hl, hall]

/-- Witness for C8 at a fresh concrete phone, via the general
equivalence. -/
theorem C8_validatePhone_ten_digits_witness :
    (validatePhone [53, 53, 53, 49, 50, 51, 52, 53, 54, 55]).valid = true :=
  (C8_validatePhone_ten_digits.1 [53, 53, 53, 49, 50, 51, 52, 53, 54, 55]).mpr
    (by decide)

/-- Claim C9: `validateName` rejects every name whose trimmed length
exceeds 30, yet the rejection message states a limit of 50 characters;
a 31-character name is rejected with exactly that message (and any
nonempty trimmed name of length at most 30 is accepted, so 30 is the
enforced bound). -/
theorem C9_validateName_bound_message :
    (∀ name : JStr, 30 < (jsTrim name).length →
      validateName name = ⟨false, "Name must not exceed 50 characters"⟩) ∧
    (∀ name : JStr, jsTrim name ≠ [] → (jsTrim name).length ≤ 30 →
      (validateName name).valid = true) ∧
    validateName (List.replicate 31 97) =
      ⟨false, "Name must not exceed 50 characters"⟩ := by
  refine ⟨?_, ?_, by decide⟩
  · intro name h
    have h1 : ¬ (name = [] ∨ jsTrim name = []) := by
      rintro (rfl | h2)
      · simp [jsTrim] at h
      · rw [h2] at h
        simp at h
    simp [validateName, h1, h]
  · intro name h1 h2
    have h3 : ¬ (name = [] ∨ jsTrim name = []) := by
      rintro (rfl | h4)
      · exact h1 (by simp [jsTrim])
      · exact h1 h4
    simp [validateName, h3, Nat.not_lt.mpr h2]

/-- Witness for C9: the 31-`a` name is rejected with the 50-character
message, and a single-letter name is accepted. -/
theorem C9_validateName_bound_message_witness :
    validateName (List.replicate 31 97) =
      ⟨false, "Name must not exceed 50 characters"⟩ ∧
    (validateName [65]).valid = true :=
  ⟨C9_validateName_bound_message.1 (List.replicate 31 97) (by decide),
   C9_validateName_bound_message.2.1 [65] (by decide) (by decide)⟩

/-! Claims about the status transition. -/

/-- Claim C10: `advance(id, "serving")` on an entry already in the
serving partition completes without any error and returns the store
verbatim — a silent no-op. -/
theorem C10_serving_on_serving_noop (now k : Nat) (db : DB) (e : Entry)
    (hw : lookupK k db.waiting = none) (hs : lookupK k db.serving = some e) :
    updateQueueStatus now k "serving" db = .ok db := by
  simp [updateQueueStatus, validStatuses, locateEntry, hw, hs]

/-- Witness for C10: advancing the already-serving entry C of the sample
store is the identity. -/
theorem C10_serving_on_serving_noop_witness :
    updateQueueStatus 500000 2 "serving" dbSample = .ok dbSample :=
  C10_serving_on_serving_noop 500000 2 dbSample entC (by decide) (by decide)

/-- Claim C3: `advance` fails with `InvalidTransitionError` on any
status outside serving/completed/skipped, and with `NotFoundError` when
the id is in neither waiting nor serving; both throws happen before the
first store write, so the erroring call leaves the store unmodified
(an `Except.error` in this embedding). -/
theorem C3_advance_failures :
    (∀ (now k : Nat) (st : String) (db : DB), st ∉ validStatuses →
      updateQueueStatus now k st db =
        .error (.invalidTransition ("Invalid status: " ++ st))) ∧
    (∀ (now k : Nat) (st : String) (db : DB), st ∈ validStatuses →
      locateEntry k db = none →
      updateQueueStatus now k st db =
        .error (.notFound "Queue entry not found in waiting or serving")) := by
  constructor
  · intro now k st db h
    simp [updateQueueStatus, h]
  · intro now k st db h hl
    simp [updateQueueStatus, h, hl]

theorem lookupK_map_self {α : Type} (k : Nat) (v : α) (l : List (Nat × α))
    (h : l.any (fun p => p.1 = k) = true) :
    lookupK k (l.map (fun p => if p.1 = k then (k, v) else p)) = some v := by
  induction l with
  | nil => simp at h
  | cons a l ih =>
    by_cases h1 : a.1 = k
    · simp [lookupK, h1]
    · have h2 : l.any (fun p => p.1 = k) = true := by
        simp only [List.any_cons, Bool.or_eq_true, decide_eq_true_eq] at h
        rcases h with h | h
        · exact absurd h h1
        · exact h
      simp [lookupK, h1, ih h2]

theorem lookupK_append_self {α : Type} (k : Nat) (v : α) (l : List (Nat × α))
    (h : ∀ p ∈ l, p.1 ≠ k) :
    lookupK k (l ++ [(k, v)]) = some v := by
  induction l with
  | nil => simp [lookupK]
  | cons a l ih =>
    have h1 : a.1 ≠ k := h a (List.mem_cons_self a l)
    simp only [List.cons_append, lookupK, h1, if_false]
    exact ih (fun p hp => h p (List.mem_cons_of_mem a hp))

theorem lookupK_setK_self {α : Type} (k : Nat) (v : α) (l : List (Nat × α)) :
    lookupK k (setK k v l) = some v := by
  unfold setK
  by_cases h : l.any (fun p => p.1 = k) = true
  · rw [if_pos h]
    exact lookupK_map_self k v l h
  · rw [if_neg h]
    refine lookupK_append_self k v l ?_
    intro p hp hk
    exact h (List.any_eq_true.mpr ⟨p, hp, by simp [hk]⟩)

/-- Run of `updateQueueStatus` on an archiving transition (`completed`
or `skipped`): the entry is removed from its current partition, inserted
into the archive with the computed wait time, and the statistics update
runs. -/
theorem advance_archive_run (now k : Nat) (st : String) (db : DB) (loc : Loc)
    (e : Entry) (hst : st = "completed" ∨ st = "skipped")
    (hloc : locateEntry k db = some (loc, e)) :
    updateQueueStatus now k st db =
      .ok (updateDailyStats now st (if e.partySize = 0 then 1 else e.partySize)
            (calcWaitTime e)
            { db with
              waiting := if loc = .waiting then removeK k db.waiting else db.waiting,
              serving := if loc = .serving then removeK k db.serving else db.serving,
              archived := setK k ⟨e, st, now, calcWaitTime e⟩ db.archived }) := by
  rcases hst with rfl | rfl <;> cases loc <;>
    simp [updateQueueStatus, validStatuses, hloc]

/-- Claim C2: completing an entry increments `totalServed` by exactly 1
and `totalPeople` by exactly the entry's `partySize` in the daily stats
read back by `getDailyStats`, while skipping leaves both unchanged.
(`now2`/`now3` are the read times; they only affect the zero-default's
`lastUpdated`.) -/
theorem C2_stats_completed_vs_skipped (now now2 now3 k : Nat) (db : DB)
    (loc : Loc) (e : Entry) (hloc : locateEntry k db = some (loc, e))
    (hp : e.partySize ≠ 0) :
    Except.map (fun d => ((getDailyStats now2 d).totalServed,
        (getDailyStats now2 d).totalPeople))
      (updateQueueStatus now k "completed" db)
      = .ok ((getDailyStats now3 db).totalServed + 1,
             (getDailyStats now3 db).totalPeople + e.partySize) ∧
    Except.map (fun d => ((getDailyStats now2 d).totalServed,
        (getDailyStats now2 d).totalPeople))
      (updateQueueStatus now k "skipped" db)
      = .ok ((getDailyStats now3 db).totalServed,
             (getDailyStats now3 db).totalPeople) := by
  have hp' : (if e.partySize = 0 then 1 else e.partySize) = e.partySize := by
    simp [hp]
  constructor
  · rw [advance_archive_run now k "completed" db loc e (Or.inl rfl) hloc]
    cases hs : db.statsDaily <;>
      simp [Except.map, updateDailyStats, getDailyStats, hs, hp']
  · rw [advance_archive_run now k "skipped" db loc e (Or.inr rfl) hloc]
    cases hs : db.statsDaily <;>
      simp [Except.map, updateDailyStats, getDailyStats, hs]

/-- Witness for C2: completing, respectively skipping, waiting entry A
of the sample store. -/
theorem C2_stats_completed_vs_skipped_witness :
    Except.map (fun d => ((getDailyStats 600000 d).totalServed,
        (getDailyStats 600000 d).totalPeople))
      (updateQueueStatus 500000 0 "completed" dbSample)
      = .ok ((getDailyStats 700000 dbSample).totalServed + 1,
             (getDailyStats 700000 dbSample).totalPeople + entA.partySize) ∧
    Except.map (fun d => ((getDailyStats 600000 d).totalServed,
        (getDailyStats 600000 d).totalPeople))
      (updateQueueStatus 500000 0 "skipped" dbSample)
      = .ok ((getDailyStats 700000 dbSample).totalServed,
             (getDailyStats 700000 dbSample).totalPeople) :=
  C2_stats_completed_vs_skipped 500000 600000 700000 0 dbSample .waiting entA
    (by decide) (by decide)

theorem archived_updateDailyStats (now : Nat) (st : String) (ps wt : Nat)
    (db : DB) : (updateDailyStats now st ps wt db).archived = db.archived := by
  unfold updateDailyStats
  split <;> (split <;> rfl)

/-- Counterexample to claim C7: skipping the serving entry C (created at
60000 ms, served at 360000 ms) also records a `waitTime` — here 5
minutes — on the archived entry, so `waitTime` is not recorded only on
transition to `completed`. -/
theorem C7_counterexample :
    updateQueueStatus 500000 2 "skipped" dbSample =
      .ok { waiting := [(0, entA), (1, entB)], serving := [],
            archived := [(2, ⟨entC, "skipped", 500000, 5⟩)],
            statsDaily := some ⟨0, 0, 0, 0, 500000⟩, statsMonthly := none,
            averageServingTime := none, nextKey := 3 } := by
  rfl

/-- Amended claim C7: every archiving transition — `completed` and
`skipped` alike — records a `waitTime` on the archived entry; the value
is `round((servedAt - createdAt) / 60000)` minutes when `createdAt` and
`servedAt` are both present and nonzero, and 0 otherwise (for example
when the entry is archived straight from waiting). -/
theorem C7_waitTime_on_archive (now k : Nat) (st : String) (db : DB)
    (loc : Loc) (e : Entry) (hst : st = "completed" ∨ st = "skipped")
    (hloc : locateEntry k db = some (loc, e)) :
    Except.map (fun d => lookupK k d.archived) (updateQueueStatus now k st db)
      = .ok (some ⟨e, st, now, calcWaitTime e⟩) ∧
    (∀ s, e.servedAt = some s → e.createdAt ≠ 0 → s ≠ 0 →
      calcWaitTime e = jsRound (s - e.createdAt) 60000) ∧
    (e.servedAt = none → calcWaitTime e = 0) := by
  refine ⟨?_, ?_, ?_⟩
  · rw [advance_archive_run now k st db loc e hst hloc]
    simp [Except.map, archived_updateDailyStats, lookupK_setK_self]
  · intro s hs h1 h2
    simp [calcWaitTime, hs, h1, h2]
  · intro hs
    simp [calcWaitTime, hs]

theorem foldr_max_range' (n s : Nat) :
    (List.range' s n).foldr max 0 = if n = 0 then 0 else s + n - 1 := by
  induction n generalizing s with
  | zero => rfl
  | succ n ih =>
    rw [List.range'_succ s n 1, List.foldr_cons, ih (s + 1)]
    by_cases h : n = 0
    · subst h
      simp
    · rw [if_neg h, if_neg (Nat.succ_ne_zero n)]
      omega

theorem getNextPosition_eq (db : DB) :
    getNextPosition db =
      if db.waiting = [] then 1
      else 1 + (db.waiting.map (fun p => p.2.position)).foldr max 0 := by
  unfold getNextPosition
  by_cases h : db.waiting = []
  · simp [h]
  · simp [h, Nat.add_comm]

theorem getNextPosition_of_range (db : DB) (n : Nat)
    (h : db.waiting.map (fun p => p.2.position) = List.range' 1 n) :
    getNextPosition db = n + 1 := by
  rw [getNextPosition_eq]
  by_cases hw : db.waiting = []
  · rw [if_pos hw]
    rw [hw] at h
    have hn : n = 0 := List.range'_eq_nil.mp h.symm
    omega
  · rw [if_neg hw, h, foldr_max_range']
    have hn : n ≠ 0 := by
      intro h0
      rw [h0] at h
      exact hw (List.map_eq_nil_iff.mp h)
    rw [if_neg hn]
    omega

theorem joinMany_positions (now : Nat) :
    ∀ (reqs : List JoinReq) (db : DB) (n : Nat),
      (∀ r ∈ reqs, validReq r) →
      db.waiting.map (fun p => p.2.position) = List.range' 1 n →
      (joinMany now reqs db).waiting.map (fun p => p.2.position)
        = List.range' 1 (n + reqs.length) := by
  intro reqs
  induction reqs with
  | nil =>
    intro db n _ h
    simpa [joinMany] using h
  | cons r reqs ih =>
    intro db n hv h
    obtain ⟨h1, h2, h3⟩ := hv r (List.mem_cons_self r reqs)
    have hcond : ¬ (jsTrim r.name = [] ∨ jsTrim r.phone = [] ∨ r.partySize < 1) := by
      push_neg
      exact ⟨h1, h2, by omega⟩
    have hj : joinQueue now r.name r.partySize r.phone db =
        .ok (db.nextKey, { db with
          waiting := db.waiting ++ [(db.nextKey,
            ⟨jsTrim r.name, r.partySize, jsTrim r.phone, getNextPosition db,
             now, now, none⟩)],
          nextKey := db.nextKey + 1 }) := by
      unfold joinQueue
      rw [if_neg hcond]
    have hstep : joinMany now (r :: reqs) db = joinMany now reqs
        { db with
          waiting := db.waiting ++ [(db.nextKey,
            ⟨jsTrim r.name, r.partySize, jsTrim r.phone, getNextPosition db,
             now, now, none⟩)],
          nextKey := db.nextKey + 1 } := by
      unfold joinMany
      simp only [List.foldl_cons, hj]
    rw [hstep]
    have hmap : (db.waiting ++ [(db.nextKey,
        (⟨jsTrim r.name, r.partySize, jsTrim r.phone, getNextPosition db,
          now, now, none⟩ : Entry))]).map (fun p => p.2.position)
        = List.range' 1 (n + 1) := by
      rw [List.map_append, h, getNextPosition_of_range db n h]
      rw [List.range'_concat 1 n]
      simp [Nat.add_comm]
    have := ih { db with
        waiting := db.waiting ++ [(db.nextKey,
          ⟨jsTrim r.name, r.partySize, jsTrim r.phone, getNextPosition db,
           now, now, none⟩)],
        nextKey := db.nextKey + 1 } (n + 1)
      (fun q hq => hv q (List.mem_cons_of_mem r hq)) hmap
    rw [this]
    congr 1
    simp [List.length_cons]
    omega

/-- Claim C1: a successful `joinQueue` appends a fresh waiting entry
whose position is 1 + the maximum position over the waiting partition
(1 when it is empty); consequently a sequence of N valid joins starting
from an empty waiting partition assigns exactly the positions 1..N in
join order. -/
theorem C1_join_positions :
    (∀ (now : Nat) (name : JStr) (partySize : Nat) (phone : JStr) (db : DB)
        (k : Nat) (db' : DB),
      joinQueue now name partySize phone db = .ok (k, db') →
      k = db.nextKey ∧
      db'.waiting = db.waiting ++
        [(k, ⟨jsTrim name, partySize, jsTrim phone,
          (if db.waiting = [] then 1
           else 1 + (db.waiting.map (fun p => p.2.position)).foldr max 0),
          now, now, none⟩)]) ∧
    (∀ (now : Nat) (reqs : List JoinReq) (db : DB),
      db.waiting = [] → (∀ r ∈ reqs, validReq r) →
      (joinMany now reqs db).waiting.map (fun p => p.2.position)
        = List.range' 1 reqs.length) := by
  constructor
  · intro now name partySize phone db k db' hok
    unfold joinQueue at hok
    split at hok
    · exact absurd hok (by simp)
    · rw [← getNextPosition_eq]
      injection hok with hok
      injection hok with hk hdb
      subst hk
      subst hdb
      exact ⟨rfl, rfl⟩
  · intro now reqs db hw hv
    have h0 : db.waiting.map (fun p => p.2.position) = List.range' 1 0 := by
      rw [hw]
      rfl
    have := joinMany_positions now reqs db 0 hv h0
    rwa [Nat.zero_add] at this

/-- Witness for C1: one concrete join on the empty store, and three
joins assigning positions 1, 2, 3. -/
theorem C1_join_positions_witness :
    (0 = dbEmpty.nextKey ∧
      (DB.mk [(0, ⟨[65], 2, [49], 1, 5, 5, none⟩)] [] [] none none none 1).waiting
        = dbEmpty.waiting ++ [(0, ⟨[65], 2, [49], 1, 5, 5, none⟩)]) ∧
    (joinMany 5 [⟨[65], 1, [49]⟩, ⟨[66], 2, [50]⟩, ⟨[67], 3, [51]⟩]
        dbEmpty).waiting.map (fun p => p.2.position) = List.range' 1 3 :=
  ⟨C1_join_positions.1 5 [65] 2 [49] dbEmpty 0 _ rfl,
   C1_join_positions.2 5 [⟨[65], 1, [49]⟩, ⟨[66], 2, [50]⟩, ⟨[67], 3, [51]⟩]
     dbEmpty rfl (by decide)⟩

theorem findIdxA_eq_none {α : Type} (p : α → Bool) (l : List α)
    (h : ∀ x ∈ l, p x = false) : findIdxA p l = none := by
  induction l with
  | nil => rfl
  | cons a l ih =>
    simp [findIdxA, h a (List.mem_cons_self a l),
      ih (fun x hx => h x (List.mem_cons_of_mem a hx))]

theorem lookupK_of_mem {α : Type} {l : List (Nat × α)} {q : Nat × α}
    (hkeys : (l.map Prod.fst).Nodup) (hm : q ∈ l) : lookupK q.1 l = some q.2 := by
  induction l with
  | nil => cases hm
  | cons a l ih =>
    rw [List.map_cons, List.nodup_cons] at hkeys
    rcases List.mem_cons.mp hm with rfl | hm
    · simp [lookupK]
    · have hne : a.1 ≠ q.1 := by
        intro h
        exact hkeys.1 (h ▸ List.mem_map.mpr ⟨q, hm, rfl⟩)
      simp [lookupK, hne, ih hkeys.2 hm]

theorem lookupK_eq_none_iff {α : Type} (k : Nat) (l : List (Nat × α)) :
    lookupK k l = none ↔ ∀ p ∈ l, p.1 ≠ k := by
  induction l with
  | nil => simp [lookupK]
  | cons a l ih =>
    by_cases h : a.1 = k
    · simp [lookupK, h]
    · simp [lookupK, h, ih]

/-- In a list sorted ascending by position, with pairwise-distinct
positions and keys, the index found for key `k` is the number of entries
whose position is strictly below that of `k`'s entry. -/
theorem findIdxA_sorted_rank (k : Nat) (e : Entry) :
    ∀ l : List (Nat × Entry), List.Sorted posLe l →
      (l.map (fun p => p.2.position)).Nodup →
      (l.map Prod.fst).Nodup →
      (k, e) ∈ l →
      findIdxA (fun p => p.1 = k) l
        = some (l.countP (fun p => p.2.position < e.position)) := by
  intro l
  induction l with
  | nil =>
    intro _ _ _ hm
    cases hm
  | cons a l ih =>
    intro hs hpos hkeys hm
    rw [List.sorted_cons] at hs
    rw [List.map_cons, List.nodup_cons] at hpos hkeys
    by_cases hk : a.1 = k
    · have hae : a = (k, e) := by
        rcases List.mem_cons.mp hm with h | hm
        · exact h.symm
        · exact absurd (hk ▸ List.mem_map.mpr ⟨(k, e), hm, rfl⟩) hkeys.1
      have hcount : (a :: l).countP (fun p => p.2.position < e.position) = 0 := by
        rw [List.countP_eq_zero]
        intro p hp
        rcases List.mem_cons.mp hp with rfl | hp
        · simp [hae]
        · have hle : posLe a p := hs.1 p hp
          have hle' : e.position ≤ p.2.position := by
            rw [hae] at hle
            exact hle
          simp only [decide_eq_true_eq]
          omega
      rw [hcount]
      simp [findIdxA, hk]
    · have hm' : (k, e) ∈ l := by
        rcases List.mem_cons.mp hm with h | hm
        · exact absurd (congrArg Prod.fst h.symm) hk
        · exact hm
      have hlt : a.2.position < e.position := by
        have hle : posLe a (k, e) := hs.1 (k, e) hm'
        have hle' : a.2.position ≤ e.position := hle
        have hne : a.2.position ≠ e.position := by
          intro hpe
          exact hpos.1 (hpe ▸ List.mem_map.mpr ⟨(k, e), hm', rfl⟩)
        exact Nat.lt_of_le_of_ne hle' hne
      rw [List.countP_cons]
      have hrec := ih hs.2 hpos.2 hkeys.2 hm'
      simp [findIdxA, hk, hrec, hlt]

theorem getQueuePosition_rank (db : DB) (k : Nat) (e : Entry)
    (hpos : (db.waiting.map (fun p => p.2.position)).Nodup)
    (hkeys : (db.waiting.map Prod.fst).Nodup)
    (hm : (k, e) ∈ db.waiting) :
    getQueuePosition k db
      = 1 + db.waiting.countP (fun p => p.2.position < e.position) := by
  have hw : db.waiting ≠ [] := by
    intro hnil
    rw [hnil] at hm
    cases hm
  unfold getQueuePosition
  rw [if_neg hw]
  have hperm : List.Perm (List.insertionSort posLe db.waiting) db.waiting :=
    List.perm_insertionSort posLe db.waiting
  have hsorted : List.Sorted posLe (List.insertionSort posLe db.waiting) :=
    List.sorted_insertionSort posLe db.waiting
  have hpos' := ((hperm.map (fun p => p.2.position)).nodup_iff).mpr hpos
  have hkeys' := ((hperm.map Prod.fst).nodup_iff).mpr hkeys
  have hm' : (k, e) ∈ List.insertionSort posLe db.waiting := hperm.mem_iff.mpr hm
  rw [findIdxA_sorted_rank k e _ hsorted hpos' hkeys' hm',
    hperm.countP_eq (fun p => p.2.position < e.position)]
  simp [Nat.add_comm]

theorem getQueuePosition_eq_zero (db : DB) (k : Nat)
    (h : lookupK k db.waiting = none) : getQueuePosition k db = 0 := by
  unfold getQueuePosition
  by_cases hw : db.waiting = []
  · rw [if_pos hw]
  · rw [if_neg hw]
    have hnk := (lookupK_eq_none_iff k db.waiting).mp h
    rw [findIdxA_eq_none]
    intro x hx
    have hxw : x ∈ db.waiting :=
      (List.perm_insertionSort posLe db.waiting).mem_iff.mp hx
    simp [hnk x hxw]

/-- Claim C5: `getStatus` reports `position` = the 1-based rank of the
entry among waiting entries by ascending stored position (formalised,
under distinct stored positions, as 1 + the number of waiting entries
with a strictly smaller position), reports 0 when the entry is serving
rather than waiting, and fails with `NotFoundError` when the id is in
neither partition. -/
theorem C5_status_rank :
    (∀ (db : DB) (k : Nat) (e : Entry),
      (db.waiting.map (fun p => p.2.position)).Nodup →
      (db.waiting.map Prod.fst).Nodup →
      (k, e) ∈ db.waiting →
      getQueueStatus k db = .ok ⟨k, e,
        1 + db.waiting.countP (fun p => p.2.position < e.position),
        getEstimatedWaitTime db⟩) ∧
    (∀ (db : DB) (k : Nat) (e : Entry),
      lookupK k db.waiting = none → lookupK k db.serving = some e →
      getQueueStatus k db = .ok ⟨k, e, 0, getEstimatedWaitTime db⟩) ∧
    (∀ (db : DB) (k : Nat),
      lookupK k db.waiting = none → lookupK k db.serving = none →
      getQueueStatus k db = .error (.notFound "Queue entry not found")) := by
  refine ⟨?_, ?_, ?_⟩
  · intro db k e hpos hkeys hm
    have hl : lookupK k db.waiting = some e := lookupK_of_mem hkeys hm
    rw [getQueueStatus, hl, getQueuePosition_rank db k e hpos hkeys hm]
  · intro db k e hw hs
    rw [getQueueStatus, hw, hs, getQueuePosition_eq_zero db k hw]
  · intro db k hw hs
    rw [getQueueStatus, hw, hs]

/-- Witness for C5 on the sample store: rank of waiting entry B, zero
for serving entry C, not-found for an absent id. -/
theorem C5_status_rank_witness :
    getQueueStatus 1 dbSample = .ok ⟨1, entB,
      1 + dbSample.waiting.countP (fun p => p.2.position < entB.position),
      getEstimatedWaitTime dbSample⟩ ∧
    getQueueStatus 2 dbSample = .ok ⟨2, entC, 0, getEstimatedWaitTime dbSample⟩ ∧
    getQueueStatus 9 dbSample = .error (.notFound "Queue entry not found") :=
  ⟨C5_status_rank.1 dbSample 1 entB (by decide) (by decide) (by decide),
   C5_status_rank.2.1 dbSample 2 entC (by decide) (by decide),
   C5_status_rank.2.2 dbSample 9 (by decide) (by decide)⟩

theorem updateK_cons {α : Type} (k : Nat) (f : α → α) (a : Nat × α)
    (l : List (Nat × α)) :
    updateK k f (a :: l) = (if a.1 = k then (a.1, f a.2) else a) :: updateK k f l := rfl

theorem lookupK_updateK_self {α : Type} (k : Nat) (f : α → α)
    (l : List (Nat × α)) :
    lookupK k (updateK k f l) = (lookupK k l).map f := by
  induction l with
  | nil => rfl
  | cons a l ih =>
    rw [updateK_cons]
    by_cases h : a.1 = k
    · simp [lookupK, h]
    · simp [lookupK, h, ih]

theorem lookupK_updateK_ne {α : Type} (k k' : Nat) (f : α → α)
    (l : List (Nat × α)) (h : k' ≠ k) :
    lookupK k' (updateK k f l) = lookupK k' l := by
  induction l with
  | nil => rfl
  | cons a l ih =>
    rw [updateK_cons]
    have hkk : ¬ (k = k') := fun hh => h hh.symm
    by_cases ha : a.1 = k
    · have hne : a.1 ≠ k' := fun hh => h (hh ▸ ha)
      simp [lookupK, ha, hne, hkk, ih]
    · by_cases hb : a.1 = k'
      · simp [lookupK, ha, hb, h, ih]
      · simp [lookupK, ha, hb, ih]

theorem entry_set_position_self (e : Entry) : { e with position := e.position } = e := by
  cases e
  rfl

/-- Run of `reorderQueues` when both entries are found in waiting. -/
theorem reorder_run (a b : Nat) (db : DB) (ea eb : Entry)
    (ha : lookupK a db.waiting = some ea) (hb : lookupK b db.waiting = some eb) :
    reorderQueues a b db = .ok { db with
      waiting := updateK b (fun e => { e with position := ea.position })
                   (updateK a (fun e => { e with position := eb.position })
                     db.waiting) } := by
  unfold reorderQueues
  rw [ha, hb]

theorem lookup_after_swap (a b : Nat) (w : List (Nat × Entry)) (ea eb : Entry)
    (ha : lookupK a w = some ea) (hb : lookupK b w = some eb) :
    lookupK a (updateK b (fun e => { e with position := ea.position })
        (updateK a (fun e => { e with position := eb.position }) w))
      = some { ea with position := eb.position } := by
  by_cases hab : a = b
  · subst hab
    have heq : ea = eb := by
      rw [ha] at hb
      exact Option.some_injective _ hb
    subst heq
    rw [lookupK_updateK_self, lookupK_updateK_self, ha]
    rfl
  · rw [lookupK_updateK_ne b a _ _ hab, lookupK_updateK_self, ha]
    rfl

theorem lookup_after_swap_snd (a b : Nat) (w : List (Nat × Entry)) (ea eb : Entry)
    (ha : lookupK a w = some ea) (hb : lookupK b w = some eb) :
    lookupK b (updateK b (fun e => { e with position := ea.position })
        (updateK a (fun e => { e with position := eb.position }) w))
      = some { eb with position := ea.position } := by
  by_cases hab : a = b
  · subst hab
    have heq : ea = eb := by
      rw [ha] at hb
      exact Option.some_injective _ hb
    subst heq
    rw [lookupK_updateK_self, lookupK_updateK_self, ha]
    rfl
  · rw [lookupK_updateK_self, lookupK_updateK_ne a b _ _ (fun hh => hab hh.symm), hb]
    rfl

theorem swap_swap_eq (a b : Nat) (w : List (Nat × Entry)) (ea eb : Entry)
    (hnd : (w.map Prod.fst).Nodup)
    (ha : lookupK a w = some ea) (hb : lookupK b w = some eb) :
    updateK b (fun e => { e with position := eb.position })
      (updateK a (fun e => { e with position := ea.position })
        (updateK b (fun e => { e with position := ea.position })
          (updateK a (fun e => { e with position := eb.position }) w))) = w := by
  simp only [updateK, List.map_map]
  conv_rhs => rw [← List.map_id w]
  apply List.map_congr_left
  intro p hp
  obtain ⟨k0, e0⟩ := p
  simp only [Function.comp_apply, id_eq]
  by_cases hpa : k0 = a
  · subst hpa
    have hme : lookupK k0 w = some e0 := lookupK_of_mem hnd hp
    rw [ha] at hme
    have hea : ea = e0 := Option.some_injective _ hme
    by_cases hpb : k0 = b
    · subst hpb
      have hme2 : lookupK k0 w = some e0 := lookupK_of_mem hnd hp
      rw [hb] at hme2
      have heb : eb = e0 := Option.some_injective _ hme2
      simp [hea, heb, entry_set_position_self]
    · simp [hpb, hea, entry_set_position_self]
  · by_cases hpb : k0 = b
    · subst hpb
      have hme2 : lookupK k0 w = some e0 := lookupK_of_mem hnd hp
      rw [hb] at hme2
      have heb : eb = e0 := Option.some_injective _ hme2
      simp [hpa, heb, entry_set_position_self]
    · simp [hpa, hpb]

/-- Claim C4: `reorder(a, b)` on two waiting entries gives entry a the
position entry b had and vice versa, and changes nothing else — not the
other waiting entries, not the other fields of a and b, and not the
other partitions or stats; running it twice restores the store exactly;
and it fails with `NotFoundError` when either id is not in the waiting
partition. -/
theorem C4_reorder_swap :
    (∀ (a b : Nat) (db : DB) (ea eb : Entry),
      lookupK a db.waiting = some ea → lookupK b db.waiting = some eb →
      reorderQueues a b db = .ok { db with
        waiting := updateK b (fun e => { e with position := ea.position })
                     (updateK a (fun e => { e with position := eb.position })
                       db.waiting) } ∧
      Except.map (fun d => (lookupK a d.waiting, lookupK b d.waiting))
          (reorderQueues a b db)
        = .ok (some { ea with position := eb.position },
               some { eb with position := ea.position }) ∧
      (∀ k, k ≠ a → k ≠ b →
        Except.map (fun d => lookupK k d.waiting) (reorderQueues a b db)
          = .ok (lookupK k db.waiting)) ∧
      Except.map (fun d => (d.serving, d.archived, d.statsDaily,
          d.statsMonthly, d.averageServingTime, d.nextKey))
          (reorderQueues a b db)
        = .ok (db.serving, db.archived, db.statsDaily, db.statsMonthly,
               db.averageServingTime, db.nextKey)) ∧
    (∀ (a b : Nat) (db db' : DB) (ea eb : Entry),
      (db.waiting.map Prod.fst).Nodup →
      lookupK a db.waiting = some ea → lookupK b db.waiting = some eb →
      reorderQueues a b db = .ok db' → reorderQueues a b db' = .ok db) ∧
    (∀ (a b : Nat) (db : DB),
      lookupK a db.waiting = none ∨ lookupK b db.waiting = none →
      reorderQueues a b db =
        .error (.notFound "One or both queue entries not found in waiting queue")) := by
  refine ⟨?_, ?_, ?_⟩
  · intro a b db ea eb ha hb
    refine ⟨reorder_run a b db ea eb ha hb, ?_, ?_, ?_⟩
    · rw [reorder_run a b db ea eb ha hb]
      simp only [Except.map]
      rw [lookup_after_swap a b db.waiting ea eb ha hb,
        lookup_after_swap_snd a b db.waiting ea eb ha hb]
    · intro k hka hkb
      rw [reorder_run a b db ea eb ha hb]
      simp only [Except.map]
      rw [lookupK_updateK_ne b k _ _ hkb, lookupK_updateK_ne a k _ _ hka]
    · rw [reorder_run a b db ea eb ha hb]
      rfl
  · intro a b db db' ea eb hnd ha hb hrun
    rw [reorder_run a b db ea eb ha hb] at hrun
    injection hrun with hdb'
    subst hdb'
    have ha' := lookup_after_swap a b db.waiting ea eb ha hb
    have hb' := lookup_after_swap_snd a b db.waiting ea eb ha hb
    rw [reorder_run a b _ _ _ ha' hb']
    congr 1
    cases db
    simp only [DB.mk.injEq, and_true, true_and]
    exact swap_swap_eq a b _ ea eb hnd ha hb
  · intro a b db h
    unfold reorderQueues
    rcases h with h | h
    · rw [h]
    · cases hA : lookupK a db.waiting with
      | none => rfl
      | some ea => rw [h]

/-- Witness for C4: swapping waiting entries A and B of the sample
store, twice, and a not-found failure. -/
theorem C4_reorder_swap_witness :
    Except.map (fun d => (lookupK 0 d.waiting, lookupK 1 d.waiting))
        (reorderQueues 0 1 dbSample)
      = .ok (some { entA with position := entB.position },
             some { entB with position := entA.position }) ∧
    reorderQueues 0 1
        ⟨[(0, ⟨[65], 2, [49, 50, 51, 52, 53, 54, 55, 56, 57, 48], 2, 60000, 60000, none⟩),
          (1, ⟨[66], 3, [50, 50, 50, 50, 50, 50, 50, 50, 50, 50], 1, 70000, 70000, none⟩)],
         [(2, entC)], [], none, none, none, 3⟩ = .ok dbSample ∧
    reorderQueues 0 9 dbSample =
      .error (.notFound "One or both queue entries not found in waiting queue") :=
  ⟨(C4_reorder_swap.1 0 1 dbSample entA entB (by decide) (by decide)).2.1,
   C4_reorder_swap.2.1 0 1 dbSample
     ⟨[(0, ⟨[65], 2, [49, 50, 51, 52, 53, 54, 55, 56, 57, 48], 2, 60000, 60000, none⟩),
       (1, ⟨[66], 3, [50, 50, 50, 50, 50, 50, 50, 50, 50, 50], 1, 70000, 70000, none⟩)],
      [(2, entC)], [], none, none, none, 3⟩ entA entB (by decide) (by decide)
     (by decide) (by rfl),
   C4_reorder_swap.2.2 0 9 dbSample (Or.inr (by decide))⟩

theorem lower_digit_eq {c : Nat} (h : isDigitCode (jsToLowerCode c) = true) :
    jsToLowerCode c = c := by
  unfold jsToLowerCode at h ⊢
  by_cases hc : 65 ≤ c ∧ c ≤ 90
  · rw [if_pos hc] at h
    simp only [isDigitCode, decide_eq_true_eq] at h
    rw [if_pos hc]
    omega
  · rw [if_neg hc]

theorem digit_lower_id {c : Nat} (h : isDigitCode c = true) :
    jsToLowerCode c = c := by
  simp only [isDigitCode, decide_eq_true_eq] at h
  unfold jsToLowerCode
  rw [if_neg (by omega)]

theorem jsToLower_of_digits {l : JStr} (hd : ∀ c ∈ l, isDigitCode c = true) :
    jsToLower l = l :=
  (List.map_congr_left (fun c hc => digit_lower_id (hd c hc))).trans (List.map_id l)

theorem digits_eq_jsToLower {l m : JStr} (hd : ∀ c ∈ l, isDigitCode c = true) :
    l = jsToLower m ↔ l = m := by
  constructor
  · intro h
    have hm : jsToLower m = m := by
      have hid : ∀ c ∈ m, jsToLowerCode c = c := by
        intro c hc
        have hmem : jsToLowerCode c ∈ l := by
          rw [h]
          exact List.mem_map.mpr ⟨c, hc, rfl⟩
        exact lower_digit_eq (hd _ hmem)
      exact (List.map_congr_left hid).trans (List.map_id m)
    rw [h, hm]
  · intro h
    subst h
    exact (jsToLower_of_digits hd).symm

theorem sliceLast_jsToLower (n : Nat) (s : JStr) :
    sliceLast n (jsToLower s) = jsToLower (sliceLast n s) := by
  unfold sliceLast jsToLower
  rw [List.length_map, List.map_drop]

theorem phoneMatches_eq_claim (t : JStr) (e : Entry)
    (hd : ∀ c ∈ e.phone, isDigitCode c = true) :
    phoneMatches (jsToLower t) e = claimPhoneMatches t e := by
  unfold phoneMatches claimPhoneMatches
  rw [jsTrim_of_digits hd, jsToLower_of_digits hd]
  have hd7 : ∀ c ∈ sliceLast 7 e.phone, isDigitCode c = true :=
    fun c hc => hd c (List.drop_subset _ _ hc)
  apply decide_eq_decide.mpr
  apply or_congr
  · exact digits_eq_jsToLower hd
  · rw [sliceLast_jsToLower]
    exact digits_eq_jsToLower hd7

theorem find?_congr_pred {α : Type} (p q : α → Bool) (l : List α)
    (h : ∀ x ∈ l, p x = q x) : l.find? p = l.find? q := by
  induction l with
  | nil => rfl
  | cons a l ih =>
    have ha := h a (List.mem_cons_self a l)
    cases hq : q a with
    | true =>
      rw [List.find?_cons_of_pos _ (ha.trans hq), List.find?_cons_of_pos _ hq]
    | false =>
      rw [List.find?_cons_of_neg _ (by simp [ha, hq]),
        List.find?_cons_of_neg _ (by simp [hq]),
        ih (fun x hx => h x (List.mem_cons_of_mem a hx))]

/-- Counterexample to claim C6: on a store with no entries at all —
hence with no matching entry in waiting or serving — searching the
whitespace-only term " " fails with a `ValidationError`
("Please enter a phone number"), not with `NotFoundError` as the claim
states for every no-match search. -/
theorem C6_counterexample :
    dbEmpty.waiting = [] ∧ dbEmpty.serving = [] ∧
    searchQueueByPhone [32] dbEmpty =
      .error (.validation "Please enter a phone number") :=
  ⟨rfl, rfl, rfl⟩

/-- Amended claim C6: a term that is empty or trims to empty fails with
`ValidationError` before any partition is scanned; any other term is
trimmed and case-folded and the waiting partition is scanned before the
serving partition, the first entry whose stored phone (trimmed and
case-folded) equals the folded term or agrees with it on the last 7 code
units winning, with `NotFoundError` when none matches — and when every
stored phone consists of ASCII digits (the intended inputs) the
case-folding and stored-side trimming are no-ops, so the scan coincides
with the claim's matching rule, here `claimSearch`. -/
theorem C6_search_refinement (phone : JStr) (db : DB)
    (hw : ∀ p ∈ db.waiting, ∀ c ∈ p.2.phone, isDigitCode c = true)
    (hs : ∀ p ∈ db.serving, ∀ c ∈ p.2.phone, isDigitCode c = true) :
    (jsTrim phone = [] → searchQueueByPhone phone db =
      .error (.validation "Please enter a phone number")) ∧
    (jsTrim phone ≠ [] → searchQueueByPhone phone db =
      claimSearch (jsTrim phone) db) := by
  constructor
  · intro h
    unfold searchQueueByPhone
    rw [if_pos (Or.inr h)]
  · intro h
    unfold searchQueueByPhone claimSearch
    have hne : ¬ (phone = [] ∨ jsTrim phone = []) := by
      rintro (rfl | h2)
      · exact h rfl
      · exact h h2
    rw [if_neg hne]
    dsimp only
    rw [find?_congr_pred _ _ db.waiting
        (fun x hx => phoneMatches_eq_claim (jsTrim phone) x.2 (hw x hx)),
      find?_congr_pred _ _ db.serving
        (fun x hx => phoneMatches_eq_claim (jsTrim phone) x.2 (hs x hx))]

/-- Witness for the amended C6: searching 9994567890 on the sample store
(all phones digits) coincides with the claim-style search, which finds
entry A by its last 7 digits. -/
theorem C6_search_refinement_witness :
    searchQueueByPhone [57, 57, 57, 52, 53, 54, 55, 56, 57, 48] dbSample =
      claimSearch (jsTrim [57, 57, 57, 52, 53, 54, 55, 56, 57, 48]) dbSample ∧
    claimSearch (jsTrim [57, 57, 57, 52, 53, 54, 55, 56, 57, 48]) dbSample =
      .ok ⟨0, "waiting", entA⟩ :=
  ⟨(C6_search_refinement [57, 57, 57, 52, 53, 54, 55, 56, 57, 48] dbSample
      (by decide) (by decide)).2 (by decide),
   by rfl⟩

/-- Witness for the amended C7: skipping serving entry C records
`waitTime = round(300000 / 60000)`. -/
theorem C7_waitTime_on_archive_witness :
    Except.map (fun d => lookupK 2 d.archived)
        (updateQueueStatus 500000 2 "skipped" dbSample)
      = .ok (some ⟨entC, "skipped", 500000, calcWaitTime entC⟩) ∧
    calcWaitTime entC = jsRound (360000 - 60000) 60000 :=
  ⟨(C7_waitTime_on_archive 500000 2 "skipped" dbSample .serving entC
      (Or.inr rfl) (by decide)).1,
   (C7_waitTime_on_archive 500000 2 "skipped" dbSample .serving entC
      (Or.inr rfl) (by decide)).2.1 360000 rfl (by decide) (by decide)⟩

/-- Witness for C3: the status "cancelled" is rejected as an invalid
transition, and completing an id absent from the empty store is a
not-found failure. -/
theorem C3_advance_failures_witness :
    updateQueueStatus 1000 0 "cancelled" dbEmpty =
      .error (.invalidTransition "Invalid status: cancelled") ∧
    updateQueueStatus 1000 7 "completed" dbSample =
      .error (.notFound "Queue entry not found in waiting or serving") :=
  ⟨C3_advance_failures.1 1000 0 "cancelled" dbEmpty (by decide),
   C3_advance_failures.2 1000 7 "completed" dbSample (by decide) (by decide)⟩
